import Mathlib

/-!
Verification of the stratified compartmental-model simulation engine
(`covid19model.models.base.BaseModel` and the `simple_stochastic_SIR`
model built on it).

The Python source is shallowly embedded:

* numpy arrays are `NDArr` (an explicit shape together with the row-major
  flattened integer entries; exact integers stand in for the float entries,
  which is faithful for every structural/shape/ordering property checked
  here);
* Python dictionaries (`parameters`, `initial_states`) are association
  lists `PMap` in insertion order, with first-match lookup and
  position-preserving update, matching `dict` semantics for unique keys;
* every `raise ValueError(...)` / `KeyError` / `IndexError` / `TypeError`
  becomes an `Except MErr` error with a structured payload mirroring the
  data interpolated into the Python message;
* the scipy `solve_ivp` collaborator is an explicit function argument
  (`Solver`), and the model-specific `integrate` transition function is an
  explicit function argument (`Integrate`), exactly as they are pluggable
  in the source;
* `numpy.random.binomial` draws inside `simple_stochastic_SIR.integrate`
  are represented by an oracle argument giving the (rounded mean) draw for
  each transition/stratum pair.
-/

namespace Covid

/-- A numpy ndarray: its shape and its row-major flattened entries. -/
structure NDArr where
  shape : List Nat
  data : List Int
  deriving DecidableEq, Repr

/-- Zero array of a given shape, as produced by `np.zeros(shape)`. -/
def zerosND (shape : List Nat) : NDArr :=
  ⟨shape, List.replicate shape.prod 0⟩

/-- Decidable equality of computation results, used to evaluate concrete
runs in closed theorems. -/
instance exceptDecEq {e a : Type} [DecidableEq e] [DecidableEq a] :
    DecidableEq (Except e a) := fun x y =>
  match x, y with
  | .ok u, .ok v =>
    match decEq u v with
    | isTrue h => isTrue (by rw [h])
    | isFalse h => isFalse (fun hc => h (Except.ok.inj hc))
  | .error u, .error v =>
    match decEq u v with
    | isTrue h => isTrue (by rw [h])
    | isFalse h => isFalse (fun hc => h (Except.error.inj hc))
  | .ok _, .error _ => isFalse (fun hc => Except.noConfusion hc)
  | .error _, .ok _ => isFalse (fun hc => Except.noConfusion hc)

/-- A Python dict with string keys, in insertion order. -/
abbrev PMap := List (String × NDArr)

/-- First-match lookup, `d[k]` as an `Option`. -/
def dlookup (m : PMap) (k : String) : Option NDArr :=
  (m.find? (fun kv => kv.1 = k)).map (fun kv => kv.2)

/-- Lookup with a zero default (used only where the source guarantees the key). -/
def dlookupD (m : PMap) (k : String) : NDArr :=
  (dlookup m k).getD (zerosND [])

/-- The key list of a dict, in insertion order. -/
def dkeys (m : PMap) : List String :=
  m.map (fun kv => kv.1)

/-- Membership test `k in d`. -/
def dmem (m : PMap) (k : String) : Bool :=
  (dkeys m).contains k

/-- Python `d[k] = v`: update in place if the key exists, else append. -/
def dset (m : PMap) (k : String) (v : NDArr) : PMap :=
  if dmem m k then
    m.map (fun kv => if kv.1 = k then (k, v) else kv)
  else
    m ++ [(k, v)]

/-- Duplicate removal keeping the first occurrence, as
`OrderedDict((x, True) for x in xs).keys()` does in the source. -/
def dedupF (l : List String) : List String :=
  go l []
where
  go : List String → List String → List String
  | [], _ => []
  | x :: xs, seen => if seen.contains x then go xs seen else x :: go xs (x :: seen)

theorem dedupF_go_mem (l : List String) :
    ∀ seen x, x ∈ dedupF.go l seen ↔ x ∈ l ∧ x ∉ seen := by
  induction l with
  | nil => intro seen x; simp [dedupF.go]
  | cons a xs ih =>
    intro seen x
    simp only [dedupF.go]
    by_cases ha : seen.contains a
    · have hmem : a ∈ seen := List.elem_iff.mp ha
      rw [if_pos ha, ih]
      constructor
      · rintro ⟨hx, hns⟩
        exact ⟨List.mem_cons_of_mem _ hx, hns⟩
      · rintro ⟨hx, hns⟩
        rcases List.mem_cons.mp hx with h | h
        · exact absurd (h ▸ hmem) hns
        · exact ⟨h, hns⟩
    · have hmem : a ∉ seen := fun h => ha (List.elem_iff.mpr h)
      rw [if_neg ha]
      constructor
      · intro hx
        rcases List.mem_cons.mp hx with h | h
        · exact ⟨h ▸ List.mem_cons_self _ _, h ▸ hmem⟩
        · have := (ih (a :: seen) x).mp h
          refine ⟨List.mem_cons_of_mem _ this.1, fun hs => this.2 (List.mem_cons_of_mem _ hs)⟩
      · rintro ⟨hx, hns⟩
        rcases List.mem_cons.mp hx with h | h
        · exact h ▸ List.mem_cons_self _ _
        · by_cases hxa : x = a
          · exact hxa ▸ List.mem_cons_self _ _
          · exact List.mem_cons_of_mem _ ((ih (a :: seen) x).mpr
              ⟨h, fun hs => (List.mem_cons.mp hs).elim hxa hns⟩)

/-- Membership in `dedupF` is membership in the original list. -/
theorem dedupF_mem (l : List String) (x : String) : x ∈ dedupF l ↔ x ∈ l := by
  rw [dedupF, dedupF_go_mem]
  simp

/-- The declarative contract carried by a `BaseModel` subclass: its class
attributes together with the argument names of its `integrate` function
(as recovered by `inspect.signature`). -/
structure ModelClass where
  state_names : List String
  parameter_names : List String
  parameters_stratified_names : List (List String)
  stratification : List String
  integrate_keywords : List String
  deriving DecidableEq, Repr

/-- A time-dependent-parameter callable: its argument names (as recovered by
`inspect.signature`) and its behaviour, receiving the date/time value and the
values of its arguments after the first, in declared order. -/
structure TDPFun where
  keywords : List String
  impl : Int → List NDArr → NDArr

/-- The structured payload of every exception raised during model
construction or simulation (each constructor mirrors one `raise` site). -/
inductive MErr where
  | missingStratAxis (axis : String)
  | tdpNotAParam (param : String)
  | tdpFirstArgNotT
  | integrateFirstArgNotT
  | statesMismatch (got expected : List String)
  | paramsMismatch (got expected : List String)
  | paramSetMismatch (redundant missing : List String)
  | stratifiedParamNdim (name : String) (ndim : Nat)
  | stratifiedParamLen (name : String) (len expected : Nat)
  | initialStateShape (name : String) (shape expected : List Nat)
  | initialStatesSetMismatch
  | keyErr (key : String)
  | indexErr
  | typeErrNonePlusInt
  deriving DecidableEq, Repr

/-- Source `BaseModel._validate_parameter_function`: the first argument must
be named `t`; a second argument named `param` classifies the callable as
relative (returning the remaining names as auxiliary), anything else as
absolute (auxiliary names start at the second argument). -/
def validate_parameter_function (keywords : List String) : Except MErr (List String × Bool) :=
  match keywords with
  | [] => .error .indexErr
  | [k0] => if k0 ≠ "t" then .error .tdpFirstArgNotT else .error .indexErr
  | k0 :: k1 :: rest =>
    if k0 ≠ "t" then .error .tdpFirstArgNotT
    else if k1 = "param" then .ok (rest, true)
    else .ok (k1 :: rest, false)

/-- The auxiliary argument names a time-dependent callable introduces
(empty when its signature does not validate). -/
def aux_names (f : TDPFun) : List String :=
  match validate_parameter_function f.keywords with
  | .ok (kwds, _) => kwds
  | .error _ => []

/-- Source `_validate_time_dependent_parameters` line building
`all_param_names`: the declared parameters, the stratified groups extended
one by one, and the stratification axes when present. -/
def all_param_names (mc : ModelClass) : List String :=
  let names := mc.parameter_names ++ mc.parameters_stratified_names.flatten
  if mc.stratification ≠ [] then names ++ mc.stratification else names

/-- Source `BaseModel._validate_time_dependent_parameters`: each
time-dependent parameter must be an existing model parameter, and each
callable is classified, accumulating the auxiliary-name lists and the
relative flags in mapping order. -/
def validate_tdp (mc : ModelClass) (tdp : List (String × TDPFun)) :
    Except MErr (List (List String) × List Bool) := do
  let pairs ← tdp.mapM (fun pf =>
    if ¬ (all_param_names mc).contains pf.1 then
      throw (.tdpNotAParam pf.1)
    else
      validate_parameter_function pf.2.keywords)
  return (pairs.map (fun p => p.1), pairs.map (fun p => p.2))

/-- Source `_validate` lines building `specified_params`: the declared
parameter names, the non-empty stratified groups appended in order, and the
stratification axes when present. -/
def specified_params_base (mc : ModelClass) : List String :=
  let sp := mc.parameter_names
  let sp := if mc.parameters_stratified_names ≠ [] then
      mc.parameters_stratified_names.foldl
        (fun acc g => if g ≠ [] then acc ++ g else acc) sp
    else sp
  if mc.stratification ≠ [] then sp ++ mc.stratification else sp

/-- Source `_validate` first section: the `integrate` signature must be the
time argument, then the state names in order, then `specified_params`.
An empty signature models the `IndexError` of `keywords[0]`. -/
def validate_fun_def (mc : ModelClass) : Except MErr Unit :=
  if mc.integrate_keywords = [] then .error .indexErr
  else if mc.integrate_keywords.headD "" ≠ "t" then .error .integrateFirstArgNotT
  else if mc.integrate_keywords.tail.take mc.state_names.length ≠ mc.state_names then
    .error (.statesMismatch (mc.integrate_keywords.tail.take mc.state_names.length)
      mc.state_names)
  else if mc.integrate_keywords.tail.drop mc.state_names.length ≠
      specified_params_base mc then
    .error (.paramsMismatch (mc.integrate_keywords.tail.drop mc.state_names.length)
      (specified_params_base mc))
  else .ok ()

/-- The difference of two key collections as Python reports it from
`set(a).difference(set(b))` (as a duplicate-free list). -/
def setDiffL (a b : List String) : List String :=
  dedupF (a.filter (fun x => ¬ b.contains x))

/-- Source `_validate` parameter-set check: the supplied parameter keys must
equal the expected names as sets; otherwise the error reports the redundant
keys and the missing keys. -/
def validate_params (keys specified : List String) : Except MErr Unit :=
  if keys.all (fun k => specified.contains k) ∧ specified.all (fun k => keys.contains k) then
    .ok ()
  else
    .error (.paramSetMismatch (setDiffL keys specified) (setDiffL specified keys))

/-- Monadic dict indexing `d[k]`, raising `KeyError` when absent. -/
def dlookupE (m : PMap) (k : String) : Except MErr NDArr :=
  match dlookup m k with
  | some v => .ok v
  | none => .error (.keyErr k)

/-- Source `validate_stratified_parameters`: a stratified parameter must be a
one-dimensional array whose length equals its axis size. -/
def validate_stratified_parameter (ss : List Nat) (i : Nat) (name : String)
    (v : NDArr) : Except MErr Unit :=
  if v.shape.length ≠ 1 then .error (.stratifiedParamNdim name v.shape.length)
  else if v.shape.headD 0 ≠ ss.getD i 0 then
    .error (.stratifiedParamLen name (v.shape.headD 0) (ss.getD i 0))
  else .ok ()

/-- Source `_validate` loop over the stratified parameter groups, checking
every named parameter of group `i` against axis size `i`. -/
def validate_stratified_parameters (mc : ModelClass) (ss : List Nat)
    (parameters : PMap) : Except MErr Unit :=
  if mc.parameters_stratified_names ≠ [] then
    (mc.parameters_stratified_names.enum).forM (fun gi =>
      gi.2.forM (fun param => do
        let v ← dlookupE parameters param
        validate_stratified_parameter ss gi.1 param v))
  else .ok ()

/-- Source `_validate` loop over `state_names`: a supplied state array must
have exactly the stratification shape; an absent declared state is appended
with zeros of that shape. -/
def fill_initial_states (ss : List Nat) : List String → PMap → Except MErr PMap
  | [], st => .ok st
  | state :: rest, st =>
    match dlookup st state with
    | some v =>
      if v.shape = ss then fill_initial_states ss rest st
      else .error (.initialStateShape state v.shape ss)
    | none => fill_initial_states ss rest (st ++ [(state, zerosND ss)])

/-- Source `_validate` initial-state section: fill and check the supplied
states, require the resulting key set to equal the declared state names, and
reorder the states into declaration order. -/
def process_initial_states (sn : List String) (ss : List Nat) (states : PMap) :
    Except MErr PMap := do
  let filled ← fill_initial_states ss sn states
  if (dkeys filled).all (fun k => sn.contains k) ∧ sn.all (fun k => (dkeys filled).contains k) then
    return sn.filterMap (fun s => (dlookup filled s).map (fun v => (s, v)))
  else
    throw .initialStatesSetMismatch

/-- Source `BaseModel._validate`, in source order: signature validation,
auxiliary-parameter accounting, parameter-set validation, parameter
reordering, stratified-parameter shape checks, and initial-state processing.
Returns the reordered parameters, the reordered initial states, and
`_n_function_params`. -/
def bvalidate (mc : ModelClass) (strat_size : List Nat)
    (function_parameters : List (List String)) (parameters states : PMap) :
    Except MErr (PMap × PMap × Nat) := do
  validate_fun_def mc
  let specified := specified_params_base mc
  let extras := if function_parameters ≠ [] then dedupF function_parameters.flatten else []
  let specified := specified ++ extras
  let nfp := extras.length
  validate_params (dkeys parameters) specified
  let parameters := (dedupF specified).filterMap
    (fun p => (dlookup parameters p).map (fun v => (p, v)))
  validate_stratified_parameters mc strat_size parameters
  let states ← process_initial_states mc.state_names strat_size states
  return (parameters, states, nfp)

/-- A validated model instance: the class contract plus everything
`BaseModel.__init__` stores on `self`. -/
structure ModelState where
  mc : ModelClass
  parameters : PMap
  initial_states : PMap
  tdp : List (String × TDPFun)
  function_parameters : List (List String)
  relative : List Bool
  n_function_params : Nat
  stratification_size : List Nat
  discrete : Bool

/-- Source `BaseModel.__init__` loop body over stratification axes: each
axis must be a supplied parameter and its size is the leading dimension of
its array (`parameters[axis].shape[0]`). -/
def axis_size (parameters : PMap) (axis : String) : Except MErr Nat :=
  if ¬ dmem parameters axis then .error (.missingStratAxis axis)
  else
    match dlookup parameters axis with
    | none => .error (.keyErr axis)
    | some v =>
      match v.shape with
      | [] => .error .indexErr
      | n :: _ => .ok n

/-- Source `BaseModel.__init__` stratification-size computation: the list of
axis sizes, or `[1]` when the model declares no stratification. -/
def strat_sizes (mc : ModelClass) (parameters : PMap) : Except MErr (List Nat) :=
  if mc.stratification ≠ [] then mc.stratification.mapM (axis_size parameters)
  else pure [1]

/-- Source `BaseModel.__init__` time-dependent-parameter bookkeeping: empty
bindings when no time-dependent parameters are given, else the validated
auxiliary-name lists and relative flags. -/
def tdp_bindings (mc : ModelClass) (tdp : List (String × TDPFun)) :
    Except MErr (List (List String) × List Bool) :=
  if tdp.isEmpty then pure ([], []) else validate_tdp mc tdp

/-- Source `BaseModel.__init__`: derive the stratification sizes, validate
the time-dependent parameters, and run `_validate`. -/
def construct (mc : ModelClass) (states parameters : PMap)
    (tdp : List (String × TDPFun)) (discrete : Bool) : Except MErr ModelState := do
  let strat_size ← strat_sizes mc parameters
  let fpr ← tdp_bindings mc tdp
  let r ← bvalidate mc strat_size fpr.1 parameters states
  return { mc := mc, parameters := r.1, initial_states := r.2.1,
           tdp := tdp, function_parameters := fpr.1, relative := fpr.2,
           n_function_params := r.2.2, stratification_size := strat_size,
           discrete := discrete }

/-- Source `_sim_single` flattening
`list(itertools.chain(*self.initial_states.values()))`: the per-state
arrays concatenated, each flattened in axis order, in state order. -/
def flatten_states (blocks : List (List Int)) : List Int :=
  blocks.flatten

/-- Source `_create_fun` reshape `y.reshape([len(state_names), sizes...])`
followed by splatting over the first axis: the flat vector split into one
flattened block of `chunk` entries per state. -/
def expand_states (nStates chunk : Nat) (y : List Int) : List (List Int) :=
  match nStates with
  | 0 => []
  | n + 1 => y.take chunk :: expand_states n chunk (y.drop chunk)

/-- One iteration of the `_create_fun` time-dependent-parameter loop: read
this callable's auxiliary values from the working mapping `params`, pass the
original `pars` value of the target parameter when the callable is relative,
and overwrite the target in the working mapping. -/
def tdp_step (pars : PMap) (date : Int) (params : PMap)
    (entry : (String × TDPFun) × List String × Bool) : PMap :=
  let param := entry.1.1
  let f := entry.1.2
  let func_params := entry.2.1.map (fun key => dlookupD params key)
  if entry.2.2 then
    dset params param (f.impl date (dlookupD pars param :: func_params))
  else
    dset params param (f.impl date func_params)

/-- Source `_create_fun` loop over `enumerate(time_dependent_parameters)`:
starting from a copy of `pars`, each callable overwrites its target
parameter in turn. -/
def update_tdp_params (tdps : List (String × TDPFun))
    (fps : List (List String)) (rels : List Bool) (pars : PMap) (date : Int) : PMap :=
  (tdps.zip (fps.zip rels)).foldl (tdp_step pars date) pars

/-- The model-specific `integrate` transition function, as the engine calls
it: the time, the per-state flattened blocks, and the parameter values in
validated order; it returns one block per state. -/
abbrev Integrate := Int → List (List Int) → List NDArr → List (List Int)

/-- Source `_create_fun` inner `func`: resolve time-dependent parameters
(against the date when an excess time is given, else the raw time), drop the
trailing auxiliary parameter values, reshape the flat vector into per-state
blocks, call `integrate`, and flatten its result. -/
def create_fun_eval (m : ModelState) (integ : Integrate) (start_date : Int)
    (excess_time : Option Int) (t : Int) (y : List Int) (pars : PMap) : List Int :=
  let params :=
    if m.tdp.isEmpty then pars
    else
      let date := match excess_time with
        | some e => start_date + (t - e)
        | none => t
      update_tdp_params m.tdp m.function_parameters m.relative pars date
  let vals := params.map (fun kv => kv.2)
  let model_pars :=
    if m.n_function_params > 0 then vals.take (vals.length - m.n_function_params)
    else vals
  let y_reshaped := expand_states m.mc.state_names.length m.stratification_size.prod y
  flatten_states (integ t y_reshaped model_pars)

/-- Source `BaseModel.solve_discrete` iteration loop: starting from the
initial column, step while `t < t1`, each step feeding the previous column
through `fun` and recording the new column and time. -/
def solve_discrete_go (f : Int → List Int → PMap → List Int) (args : PMap) :
    Nat → Int → List Int → List (List Int) × List Int
  | 0, _, _ => ([], [])
  | n + 1, t, y_prev =>
    let out := f t y_prev args
    let rest := solve_discrete_go f args n (t + 1) out
    (out :: rest.1, (t + 1) :: rest.2)

/-- Source `BaseModel.solve_discrete`: the columns of the output matrix
(the initial state followed by one column per step) and the time list. -/
def solve_discrete (f : Int → List Int → PMap → List Int) (t0 t1 : Int)
    (y0 : List Int) (args : PMap) : List (List Int) × List Int :=
  let steps := (t1 - t0).toNat
  let rest := solve_discrete_go f args steps t0 y0
  (y0 :: rest.1, t0 :: rest.2)

/-- A labeled output array (one per state): dimension names, sizes, and
row-major data, mirroring an `xarray.DataArray`. -/
structure DArr where
  dims : List String
  sizes : List Nat
  data : List Int
  deriving DecidableEq, Repr

/-- A labeled output dataset keyed by state name, mirroring an
`xarray.Dataset`. -/
structure DSet where
  vars : List (String × DArr)
  deriving DecidableEq, Repr

/-- The time series of row `idx` of the output matrix given as columns. -/
def row_series (cols : List (List Int)) (idx : Nat) : List Int :=
  cols.map (fun c => c.getD idx 0)

/-- Source `_output_to_xarray_dataset`: reshape the flat trajectory into one
array per state with dimensions (stratification axes..., time). -/
def output_to_dataset (m : ModelState) (cols : List (List Int)) (ts : List Int) : DSet :=
  let dims :=
    (if m.mc.stratification.isEmpty then [] else m.mc.stratification) ++ ["time"]
  let sizes :=
    (if m.mc.stratification.isEmpty then [] else m.stratification_size) ++ [ts.length]
  let chunk := m.stratification_size.prod
  ⟨(m.mc.state_names.enum).map (fun si =>
    let block := ((List.range chunk).map
      (fun k => row_series cols (si.1 * chunk + k))).flatten
    (si.2, ⟨dims, sizes, block⟩))⟩

/-- The external adaptive-step solver collaborator (`scipy.solve_ivp`):
given the right-hand side, the time span, the flat initial vector and the
parameter mapping, it produces the sampled columns and times. -/
abbrev Solver := (Int → List Int → PMap → List Int) → (Int × Int) → List Int → PMap →
  List (List Int) × List Int

/-- Source `BaseModel._sim_single`: build the right-hand-side function,
flatten the initial states, run either the continuous solver or the discrete
loop, and assemble the labeled dataset. -/
def sim_single (m : ModelState) (integ : Integrate) (solver : Solver)
    (tp : Int × Int) (start_date : Int) (excess_time : Option Int) : DSet :=
  let f := fun t y pars => create_fun_eval m integ start_date excess_time t y pars
  let y0 := flatten_states (m.initial_states.map (fun kv => kv.2.data))
  let out :=
    if m.discrete = false then solver f tp y0 m.parameters
    else solve_discrete f tp.1 tp.2 y0 m.parameters
  output_to_dataset m out.1 out.2

/-- Source `xarray.concat([out, new], "draws")` as `sim` uses it: the first
concatenation introduces the `draws` dimension (in leading position, as
`xarray` places a new dimension) with size two; later concatenations grow
it by one. Applied variable by variable, pairing by name. -/
def concat_draws (a b : DSet) : DSet :=
  ⟨a.vars.map (fun va =>
    let bd := match b.vars.find? (fun vb => vb.1 = va.1) with
      | some vb => vb.2.data
      | none => []
    if va.2.dims.contains "draws" then
      (va.1, ⟨va.2.dims, (va.2.sizes.headD 0 + 1) :: va.2.sizes.tail, va.2.data ++ bd⟩)
    else
      (va.1, ⟨"draws" :: va.2.dims, 2 :: va.2.sizes, va.2.data ++ bd⟩))⟩

/-- Source `BaseModel.date_to_diff`: the exact day difference between the
two dates plus the excess time; adding the default `None` excess raises a
`TypeError`. Dates are embedded as day numbers. -/
def date_to_diff (start_date date : Int) (excess_time : Option Int) : Except MErr Int :=
  match excess_time with
  | none => .error .typeErrNonePlusInt
  | some e => .ok ((date - start_date) + e)

/-- The three accepted forms of the `time` argument of `sim`: a single
duration, an explicit pair, or a calendar end date (as a day number). -/
inductive TimeSpec where
  | int (n : Int)
  | pair (a b : Int)
  | str (d : Int)
  deriving DecidableEq, Repr

/-- Source `sim` time normalization: an integer becomes `[0, n]`, a date
string becomes `[0, date_to_diff ...]`, a pair passes through. -/
def normalize_time (time : TimeSpec) (start_date : Int) (excess_time : Option Int) :
    Except MErr (Int × Int) :=
  match time with
  | .int n => .ok (0, n)
  | .pair a b => .ok (a, b)
  | .str d => (date_to_diff start_date d excess_time).map (fun n => (0, n))

/-- Source `BaseModel.sim`: normalize the time, save the baseline parameter
mapping, optionally draw new parameters before the first run, run once, then
`N - 1` more times (drawing before each) concatenating along `draws`, and
finally restore the baseline parameters on the instance. Returns the updated
instance together with the output. -/
def sim (m : ModelState) (integ : Integrate) (solver : Solver) (time : TimeSpec)
    (excess_time : Option Int) (start_date : Int) (N : Nat)
    (draw_fcn : Option (PMap → PMap → PMap)) (samples : PMap) :
    Except MErr (ModelState × DSet) := do
  let tp ← normalize_time time start_date excess_time
  let cp := m.parameters
  let m1 := match draw_fcn with
    | some d => { m with parameters := d m.parameters samples }
    | none => m
  let out := sim_single m1 integ solver tp start_date excess_time
  let res := (List.range (N - 1)).foldl (fun acc _ =>
    let mi := match draw_fcn with
      | some d => { acc.1 with parameters := d acc.1.parameters samples }
      | none => acc.1
    (mi, concat_draws acc.2 (sim_single mi integ solver tp start_date excess_time)))
    (m1, out)
  return ({ res.1 with parameters := cp }, res.2)

/-- Source `simple_stochastic_SIR.integrate`: the per-transition
propensities (zero for an empty or negative stratum, otherwise the averaged
rounded binomial draw, represented by the `oracle`), the explicit S/I/R
update, and the protection clamping every negative entry of the output
states to zero. -/
def sir_integrate (oracle : Nat → Nat → Int) : Integrate :=
  fun _ states _ =>
    let S := states.getD 0 []
    let I := states.getD 1 []
    let R := states.getD 2 []
    let prop := fun (i : Nat) (st : List Int) =>
      (st.enum).map (fun jx => if jx.2 ≤ 0 then 0 else oracle i jx.1)
    let StoI := prop 0 S
    let ItoR := prop 1 I
    let S_new := (S.zip StoI).map (fun p => p.1 - p.2)
    let I_new := ((I.zip StoI).zip ItoR).map (fun p => p.1.1 + p.1.2 - p.2)
    let R_new := (R.zip ItoR).map (fun p => p.1 + p.2)
    [S_new, I_new, R_new].map (List.map (fun x => if x < 0 then 0 else x))

/-- The shape signature of an output dataset: per state, its dimension names
and sizes. -/
def var_shapes (d : DSet) : List (String × List String × List Nat) :=
  d.vars.map (fun v => (v.1, v.2.dims, v.2.sizes))

/-!
Concrete fixtures used by the theorems below: a minimal unstratified
single-state model and the `simple_stochastic_SIR` contract.
-/

/-- A minimal concrete model class: one state, one parameter, no
stratification, a matching `integrate` signature. -/
def mcT : ModelClass := ⟨["S"], ["beta"], [], [], ["t", "S", "beta"]⟩

/-- Concrete initial states for `mcT`. -/
def statesT : PMap := [("S", ⟨[1], [5]⟩)]

/-- Concrete parameters for `mcT`. -/
def paramsT : PMap := [("beta", ⟨[], [2]⟩)]

/-- A concrete deterministic transition function: adds one to every entry. -/
def integT : Integrate := fun _ states _ => states.map (fun b => b.map (fun x => x + 1))

/-- A dummy external solver (unused by discrete-mode runs). -/
def solvT : Solver := fun _ _ _ _ => ([], [])

/-- The validated instance of the minimal model, in discrete mode. -/
def mT : ModelState :=
  { mc := mcT, parameters := paramsT, initial_states := statesT, tdp := [],
    function_parameters := [], relative := [], n_function_params := 0,
    stratification_size := [1], discrete := true }

/-- The declared contract of `simple_stochastic_SIR`. -/
def mcSIR : ModelClass :=
  ⟨["S", "I", "R"], ["beta", "gamma"], [], ["Nc"],
   ["t", "S", "I", "R", "beta", "gamma", "Nc"]⟩

/-- SIR initial states holding a negative susceptible count. -/
def statesSIRneg : PMap := [("S", ⟨[1], [-1]⟩), ("I", ⟨[1], [1]⟩)]

/-- Concrete SIR parameters (one stratum). -/
def paramsSIR : PMap := [("beta", ⟨[], [2]⟩), ("gamma", ⟨[], [1]⟩), ("Nc", ⟨[1], [7]⟩)]

/-- A validated SIR instance with non-negative initial states, discrete. -/
def mSIRpos : ModelState :=
  { mc := mcSIR, parameters := paramsSIR,
    initial_states := [("S", ⟨[1], [3]⟩), ("I", ⟨[1], [1]⟩), ("R", ⟨[1], [0]⟩)],
    tdp := [], function_parameters := [], relative := [], n_function_params := 0,
    stratification_size := [1], discrete := true }

/-- A concrete draw oracle for the stochastic SIR transitions. -/
def oracleT : Nat → Nat → Int := fun _ _ => 1

/-- A draw function returning a completely new parameter mapping (the sample
collection itself). -/
def drawT : PMap → PMap → PMap := fun _ s => s

/-- A concrete sample collection. -/
def samplesT : PMap := [("beta", ⟨[], [9]⟩)]

/-- The minimal model instance after one application of `drawT`. -/
def mTd : ModelState := { mT with parameters := samplesT }

/-- An absolute time-dependent callable with one unused auxiliary argument,
returning the constant 99. -/
def tdpf1 : TDPFun := ⟨["t", "dummy"], fun _ _ => ⟨[], [99]⟩⟩

/-- An absolute time-dependent callable whose only auxiliary argument is
`gamma`, returning that auxiliary value unchanged. -/
def tdpf2 : TDPFun := ⟨["t", "gamma"], fun _ args => args.headD ⟨[], [0]⟩⟩

/-- A time-dependent-parameter mapping overwriting `gamma` first, then
`beta` from the auxiliary value of `gamma`. -/
def tdpsC4 : List (String × TDPFun) := [("gamma", tdpf1), ("beta", tdpf2)]

/-- Baseline parameters for the two-callable configuration (including the
auxiliary parameter consumed only by the first callable). -/
def parsC4 : PMap := [("beta", ⟨[], [5]⟩), ("gamma", ⟨[], [1]⟩), ("dummy", ⟨[], [0]⟩)]

/-! Helper lemmas. -/

theorem exceptOk_exists {α : Type} {e : Except MErr α} (h : e.isOk = true) :
    ∃ a, e = .ok a := by
  cases e with
  | error x => simp [Except.isOk, Except.toBool] at h
  | ok a => exact ⟨a, rfl⟩

theorem bind_ok_exists {α β : Type} {e : Except MErr α} {f : α → Except MErr β} {b : β}
    (h : e >>= f = .ok b) : ∃ a, e = .ok a ∧ f a = .ok b := by
  cases e with
  | error x => simp [Bind.bind, Except.bind] at h
  | ok a => exact ⟨a, rfl, by simpa [Bind.bind, Except.bind] using h⟩

theorem bind_isOk {α β : Type} {e : Except MErr α} {f : α → Except MErr β}
    (h : (e >>= f).isOk = true) : ∃ a, e = .ok a ∧ (f a).isOk = true := by
  cases e with
  | error x => simp [Bind.bind, Except.bind, Except.isOk, Except.toBool] at h
  | ok a => exact ⟨a, rfl, by simpa [Bind.bind, Except.bind] using h⟩

theorem dlookup_none_iff (m : PMap) (k : String) :
    dlookup m k = none ↔ k ∉ dkeys m := by
  simp only [dlookup, Option.map_eq_none', List.find?_eq_none, dkeys, List.mem_map,
    decide_eq_true_eq, not_exists, not_and]

theorem dlookup_append (a b : PMap) (k : String) :
    dlookup (a ++ b) k = ((dlookup a k).or (dlookup b k)) := by
  simp only [dlookup, List.find?_append]
  cases List.find? (fun kv => decide (kv.1 = k)) a <;> simp

theorem dlookup_eq_some_mem {m : PMap} {k : String} {v : NDArr}
    (h : dlookup m k = some v) : (k, v) ∈ m := by
  simp only [dlookup, Option.map_eq_some'] at h
  obtain ⟨kv, hfind, hval⟩ := h
  have hmem := List.mem_of_find?_eq_some hfind
  have hkey := List.find?_some hfind
  have : kv.1 = k := by simpa using hkey
  have : kv = (k, v) := by
    cases kv; simp_all
  exact this ▸ hmem

theorem getD_nonneg {c : List Int} (h : ∀ x ∈ c, 0 ≤ x) (i : Nat) :
    0 ≤ c.getD i 0 := by
  have he : c.getD i 0 = (c.get? i).getD 0 := rfl
  rw [he]
  rcases hg : c.get? i with _ | v
  · simp
  · simpa using h v (List.get?_mem hg)

/-!
Claim C10.
-/

/-- Claim C10: for every call to `sim` whose time specification is a calendar
date and whose excess/warmup offset is left at its default `None`, the
date-to-offset conversion fails (adding the `None` offset to the integer day
difference raises a `TypeError`), so `sim` cannot complete. -/
theorem c10_date_time_requires_excess (m : ModelState) (integ : Integrate)
    (solver : Solver) (d : Int) (start_date : Int) (N : Nat)
    (draw_fcn : Option (PMap → PMap → PMap)) (samples : PMap) :
    sim m integ solver (.str d) none start_date N draw_fcn samples =
      .error .typeErrNonePlusInt := rfl

/-!
Claims C3 and C9.
-/

/-- With no draw function the ensemble loop leaves the instance untouched and
only concatenates outputs of runs of the same instance. -/
theorem sim_loop_none (integ : Integrate) (solver : Solver) (tp : Int × Int)
    (sd : Int) (ex : Option Int) (l : List Nat) :
    ∀ (a : ModelState) (b : DSet),
      (l.foldl (fun acc (_ : Nat) =>
        (acc.1, concat_draws acc.2 (sim_single acc.1 integ solver tp sd ex))) (a, b)) =
      (a, l.foldl (fun o (_ : Nat) =>
        concat_draws o (sim_single a integ solver tp sd ex)) b) := by
  induction l with
  | nil => intro a b; rfl
  | cons x xs ih => intro a b; exact ih a _

/-- A `sim` call with no draw function returns the instance unchanged
together with the (`N - 1`)-fold concatenation of identical single runs. -/
theorem sim_none_eq (m : ModelState) (integ : Integrate) (solver : Solver)
    (time : TimeSpec) (ex : Option Int) (sd : Int) (N : Nat) (samples : PMap)
    (tp : Int × Int) (htp : normalize_time time sd ex = .ok tp) :
    sim m integ solver time ex sd N none samples =
      .ok (m, (List.range (N - 1)).foldl (fun o (_ : Nat) =>
        concat_draws o (sim_single m integ solver tp sd ex))
        (sim_single m integ solver tp sd ex)) := by
  unfold sim
  rw [htp]
  show Except.ok _ = _
  rw [sim_loop_none]

/-- Claim C3: for every call to `sim` on a valid instance, with any number of
draws and any draw function (including one returning a completely new
parameter mapping each draw), the stored parameter mapping of the returned
instance equals the baseline mapping held before the call. -/
theorem c3_sim_restores_parameters (m : ModelState) (integ : Integrate)
    (solver : Solver) (time : TimeSpec) (ex : Option Int) (sd : Int) (N : Nat)
    (draw_fcn : Option (PMap → PMap → PMap)) (samples : PMap)
    (m2 : ModelState) (out : DSet)
    (h : sim m integ solver time ex sd N draw_fcn samples = .ok (m2, out)) :
    m2.parameters = m.parameters := by
  unfold sim at h
  obtain ⟨tp, htp, h⟩ := bind_ok_exists h
  simp only [pure, Except.pure, Except.ok.injEq, Prod.mk.injEq] at h
  obtain ⟨hm, _⟩ := h
  rw [← hm]

/-- Claim C9: calling `sim` twice with no draw function and identical inputs
on an unmutated instance returns the instance unchanged and identical output
both times. -/
theorem c9_sim_idempotent (m : ModelState) (integ : Integrate) (solver : Solver)
    (time : TimeSpec) (ex : Option Int) (sd : Int) (N : Nat) (samples : PMap)
    (m1 : ModelState) (o1 : DSet)
    (h : sim m integ solver time ex sd N none samples = .ok (m1, o1)) :
    m1 = m ∧ sim m1 integ solver time ex sd N none samples = .ok (m1, o1) := by
  cases htp : normalize_time time sd ex with
  | error e =>
    unfold sim at h
    rw [htp] at h
    simp [Bind.bind, Except.bind] at h
  | ok tp =>
    rw [sim_none_eq m integ solver time ex sd N samples tp htp] at h
    have hm1 : m = m1 := congrArg (fun p => p.1) (Except.ok.inj h)
    have ho1 : o1 = (List.range (N - 1)).foldl (fun o (_ : Nat) =>
        concat_draws o (sim_single m integ solver tp sd ex))
        (sim_single m integ solver tp sd ex) :=
      (congrArg (fun p => p.2) (Except.ok.inj h)).symm
    refine ⟨hm1.symm, ?_⟩
    rw [← hm1, ho1]
    exact sim_none_eq m integ solver time ex sd N samples tp htp

/-!
Claim C8.
-/

/-- Expanding the concatenation of equal-length blocks recovers the blocks. -/
theorem expand_flatten (chunk : Nat) :
    ∀ blocks : List (List Int), (∀ s ∈ blocks, s.length = chunk) →
      expand_states blocks.length chunk (flatten_states blocks) = blocks := by
  intro blocks
  induction blocks with
  | nil => intro _; rfl
  | cons b rest ih =>
    intro hlen
    have hb : b.length = chunk := hlen b (List.mem_cons_self _ _)
    simp only [flatten_states, List.flatten_cons, List.length_cons, expand_states]
    rw [← hb, List.take_left, List.drop_left, hb]
    have := ih (fun s hs => hlen s (List.mem_cons_of_mem _ hs))
    rw [show rest.flatten = flatten_states rest from rfl, this]

/-- Claim C8: flattening a valid stratified state (each state block flattened
in axis order, concatenated in state order), expanding the flat vector back
into per-state blocks, and flattening again returns the same flat vector. -/
theorem c8_flatten_expand_roundtrip (blocks : List (List Int)) (n chunk : Nat)
    (hn : blocks.length = n) (hc : ∀ s ∈ blocks, s.length = chunk) :
    flatten_states (expand_states n chunk (flatten_states blocks)) =
      flatten_states blocks := by
  rw [← hn, expand_flatten chunk blocks hc]

/-- Witness for C8 at a concrete two-state stratified configuration. -/
theorem c8_witness :
    ([[3, 1], [4, 1]] : List (List Int)).length = 2 ∧
    (∀ s ∈ ([[3, 1], [4, 1]] : List (List Int)), s.length = 2) ∧
    flatten_states (expand_states 2 2 (flatten_states [[3, 1], [4, 1]])) =
      flatten_states [[3, 1], [4, 1]] :=
  ⟨by decide, by decide,
    c8_flatten_expand_roundtrip [[3, 1], [4, 1]] 2 2 (by decide) (by decide)⟩

/-!
Claim C2.
-/

theorem foldl_append_nonempty (l : List (List String)) :
    ∀ acc : List String,
      l.foldl (fun a g => if g ≠ [] then a ++ g else a) acc = acc ++ l.flatten := by
  induction l with
  | nil => intro acc; simp
  | cons g rest ih =>
    intro acc
    rw [List.foldl_cons]
    by_cases hg : g = []
    · subst hg
      rw [if_neg (by simp), ih]
      simp
    · rw [if_pos hg, ih, List.flatten_cons, List.append_assoc]

/-- The `specified_params` list the source builds equals the declared
parameter names, the flattened stratified groups, and the axes. -/
theorem specified_params_base_eq (mc : ModelClass) :
    specified_params_base mc = mc.parameter_names ++
      mc.parameters_stratified_names.flatten ++ mc.stratification := by
  simp only [specified_params_base]
  by_cases hs : mc.stratification = []
  · rw [if_neg (not_not_intro hs)]
    by_cases hp : mc.parameters_stratified_names = []
    · rw [if_neg (not_not_intro hp), hp, hs]
      simp
    · rw [if_pos hp, foldl_append_nonempty, hs]
      simp
  · rw [if_pos hs]
    by_cases hp : mc.parameters_stratified_names = []
    · rw [if_neg (not_not_intro hp), hp]
      simp
    · rw [if_pos hp, foldl_append_nonempty]

/-- Claim C2: signature validation of the transition function succeeds
exactly when its arguments are the time argument `t`, then the state names
in order, then the declared parameter names, the flattened stratified
parameter groups and the stratification axes, in that order; any mismatch is
a construction-time error. -/
theorem c2_integrate_signature_exact (mc : ModelClass) :
    validate_fun_def mc = .ok () ↔
      mc.integrate_keywords = "t" :: (mc.state_names ++
        (mc.parameter_names ++ mc.parameters_stratified_names.flatten ++
         mc.stratification)) := by
  unfold validate_fun_def
  constructor
  · intro h
    by_cases he : mc.integrate_keywords = []
    · rw [if_pos he] at h
      exact absurd h (by simp)
    · rw [if_neg he] at h
      by_cases h0 : mc.integrate_keywords.headD "" = "t"
      · rw [if_neg (not_not_intro h0)] at h
        by_cases h1 : mc.integrate_keywords.tail.take mc.state_names.length =
            mc.state_names
        · rw [if_neg (not_not_intro h1)] at h
          by_cases h2 : mc.integrate_keywords.tail.drop mc.state_names.length =
              specified_params_base mc
          · obtain ⟨k0, rest, hk⟩ := List.exists_cons_of_ne_nil he
            rw [hk] at h0 h1 h2 ⊢
            simp only [List.headD_cons] at h0
            simp only [List.tail_cons] at h1 h2
            rw [h0, ← List.take_append_drop mc.state_names.length rest, h1, h2,
              specified_params_base_eq]
          · rw [if_pos h2] at h
            exact absurd h (by simp)
        · rw [if_pos h1] at h
          exact absurd h (by simp)
      · rw [if_pos h0] at h
        exact absurd h (by simp)
  · intro h
    rw [h]
    rw [if_neg (by simp)]
    simp only [List.headD_cons, List.tail_cons]
    rw [if_neg (by simp)]
    rw [if_neg (not_not_intro (List.take_left _ _))]
    rw [if_neg (not_not_intro (by rw [List.drop_left, specified_params_base_eq]))]

/-- Witness for C2 at the declared contract of `simple_stochastic_SIR`. -/
theorem c2_witness :
    validate_fun_def ⟨["S", "I", "R"], ["beta", "gamma"], [], ["Nc"],
      ["t", "S", "I", "R", "beta", "gamma", "Nc"]⟩ = .ok () :=
  (c2_integrate_signature_exact _).mpr (by decide)

/-!
Claim C1.
-/

theorem validate_params_cond_iff (keys specified : List String)
    (hc : keys.all (fun k => specified.contains k) = true ∧
      specified.all (fun k => keys.contains k) = true) :
    ∀ x, x ∈ keys ↔ x ∈ specified := by
  intro x
  constructor
  · intro hx
    exact List.elem_iff.mp (List.all_eq_true.mp hc.1 x hx)
  · intro hx
    exact List.elem_iff.mp (List.all_eq_true.mp hc.2 x hx)

theorem validate_params_ok_iff (keys specified : List String) :
    validate_params keys specified = .ok () ↔ ∀ x, x ∈ keys ↔ x ∈ specified := by
  unfold validate_params
  constructor
  · intro h
    by_cases hc : keys.all (fun k => specified.contains k) = true ∧
        specified.all (fun k => keys.contains k) = true
    · exact validate_params_cond_iff keys specified hc
    · rw [if_neg hc] at h
      exact absurd h (by simp)
  · intro h
    rw [if_pos ⟨List.all_eq_true.mpr (fun x hx => List.elem_iff.mpr ((h x).mp hx)),
      List.all_eq_true.mpr (fun x hx => List.elem_iff.mpr ((h x).mpr hx))⟩]

theorem validate_params_error (keys specified : List String)
    (h : ¬ ∀ x, x ∈ keys ↔ x ∈ specified) :
    validate_params keys specified =
      .error (.paramSetMismatch (setDiffL keys specified) (setDiffL specified keys)) := by
  unfold validate_params
  rw [if_neg (fun hc => h (validate_params_cond_iff keys specified hc))]

theorem extras_eq (fps : List (List String)) :
    (if fps ≠ [] then dedupF fps.flatten else []) = dedupF fps.flatten := by
  by_cases h : fps = []
  · rw [if_neg (not_not_intro h), h]
    rfl
  · rw [if_pos h]

/-- A successful classification-loop run maps each callable to its
auxiliary names. -/
theorem mapM_classify_fst (mc : ModelClass) :
    ∀ (tdp : List (String × TDPFun)) (pairs : List (List String × Bool)),
      tdp.mapM (fun pf =>
        if ¬ (all_param_names mc).contains pf.1 then
          throw (MErr.tdpNotAParam pf.1)
        else
          validate_parameter_function pf.2.keywords) = .ok pairs →
      pairs.map (fun p => p.1) = tdp.map (fun pf => aux_names pf.2) := by
  intro tdp
  induction tdp with
  | nil =>
    intro pairs h
    simp only [List.mapM_nil, pure, Except.pure, Except.ok.injEq] at h
    rw [← h]
    rfl
  | cons pf rest ih =>
    intro pairs h
    rw [List.mapM_cons] at h
    obtain ⟨a, ha, h⟩ := bind_ok_exists h
    obtain ⟨as, has, h⟩ := bind_ok_exists h
    simp only [pure, Except.pure, Except.ok.injEq] at h
    have hv : validate_parameter_function pf.2.keywords = .ok a := by
      by_cases hc : ¬ (all_param_names mc).contains pf.1 = true
      · rw [if_pos hc] at ha
        exact absurd ha (by simp [throw, throwThe, MonadExceptOf.throw])
      · rwa [if_neg hc] at ha
    have haux : aux_names pf.2 = a.1 := by
      unfold aux_names
      rw [hv]
    rw [← h]
    simp only [List.map_cons, haux]
    rw [ih as has]

/-- A successful `validate_tdp` returns exactly the auxiliary-name lists of
the callables, in mapping order. -/
theorem validate_tdp_ok_fst {mc : ModelClass} {tdp : List (String × TDPFun)}
    {fps : List (List String)} {rels : List Bool}
    (h : validate_tdp mc tdp = .ok (fps, rels)) :
    fps = tdp.map (fun pf => aux_names pf.2) := by
  unfold validate_tdp at h
  obtain ⟨pairs, hp, h⟩ := bind_ok_exists h
  simp only [pure, Except.pure, Except.ok.injEq, Prod.mk.injEq] at h
  rw [← h.1]
  exact mapM_classify_fst mc tdp pairs hp

/-- A successful `bvalidate` implies the parameter-set check succeeded
against the declared names extended with the deduplicated auxiliary names. -/
theorem bvalidate_ok_validate_params {mc : ModelClass} {ss : List Nat}
    {fps : List (List String)} {parameters states : PMap}
    (h : (bvalidate mc ss fps parameters states).isOk = true) :
    validate_params (dkeys parameters)
      (specified_params_base mc ++ dedupF fps.flatten) = .ok () := by
  unfold bvalidate at h
  obtain ⟨u, hu, h⟩ := bind_isOk h
  obtain ⟨v, hv, h⟩ := bind_isOk h
  rw [extras_eq] at hv
  cases v
  exact hv

/-- Decomposition of a successful construction into its validation steps. -/
theorem construct_ok_parts {mc : ModelClass} {states parameters : PMap}
    {tdp : List (String × TDPFun)} {discrete : Bool}
    (h : (construct mc states parameters tdp discrete).isOk = true) :
    ∃ ss fps rels,
      tdp_bindings mc tdp = (.ok (fps, rels) : Except MErr _) ∧
      (bvalidate mc ss fps parameters states).isOk = true := by
  unfold construct at h
  obtain ⟨ss, hss, h⟩ := bind_isOk h
  obtain ⟨fpr, hf, h⟩ := bind_isOk h
  obtain ⟨fps, rels⟩ := fpr
  obtain ⟨r, hr, _⟩ := bind_isOk h
  exact ⟨ss, fps, rels, hf, by rw [hr]; rfl⟩

/-- Claim C1: construction succeeds only if the supplied parameter keys are
exactly the union of the declared parameter names, the flattened stratified
parameter names, the stratification axes, and the auxiliary names of the
time-dependent callables; and whenever the key sets differ, the check fails
reporting both the redundant and the missing keys. -/
theorem c1_parameter_set_exact :
    (∀ (mc : ModelClass) (states parameters : PMap) (tdp : List (String × TDPFun))
       (discrete : Bool),
      (construct mc states parameters tdp discrete).isOk = true →
      ∀ x, x ∈ dkeys parameters ↔
        (x ∈ mc.parameter_names ∨ x ∈ mc.parameters_stratified_names.flatten ∨
         x ∈ mc.stratification ∨ ∃ pf ∈ tdp, x ∈ aux_names pf.2)) ∧
    (∀ keys specified : List String, ¬ (∀ x, x ∈ keys ↔ x ∈ specified) →
      validate_params keys specified =
        .error (.paramSetMismatch (setDiffL keys specified) (setDiffL specified keys))) := by
  constructor
  · intro mc states parameters tdp discrete h x
    obtain ⟨ss, fps, rels, hf, hb⟩ := construct_ok_parts h
    have hvp := validate_params_ok_iff (dkeys parameters)
      (specified_params_base mc ++ dedupF fps.flatten)
    have hiff := (hvp.mp (bvalidate_ok_validate_params hb)) x
    rw [hiff]
    have hfps : fps = tdp.map (fun pf => aux_names pf.2) := by
      unfold tdp_bindings at hf
      cases tdp with
      | nil =>
        simp only [List.isEmpty_nil, if_pos, pure, Except.pure, Except.ok.injEq,
          Prod.mk.injEq] at hf
        rw [← hf.1]
        rfl
      | cons p rest =>
        exact validate_tdp_ok_fst (by simpa using hf)
    rw [specified_params_base_eq, hfps]
    simp only [List.mem_append, dedupF_mem, List.mem_flatten, List.mem_map]
    constructor
    · rintro (((h1 | h2) | h3) | ⟨l, ⟨pf, hpf, hl⟩, hx⟩)
      · exact Or.inl h1
      · exact Or.inr (Or.inl h2)
      · exact Or.inr (Or.inr (Or.inl h3))
      · exact Or.inr (Or.inr (Or.inr ⟨pf, hpf, hl ▸ hx⟩))
    · rintro (h1 | h2 | h3 | ⟨pf, hpf, hx⟩)
      · exact Or.inl (Or.inl (Or.inl h1))
      · exact Or.inl (Or.inl (Or.inr h2))
      · exact Or.inl (Or.inr h3)
      · exact Or.inr ⟨aux_names pf.2, ⟨pf, hpf, rfl⟩, hx⟩
  · exact validate_params_error

/-- Witness for C1: the membership characterization at a concrete successful
construction, and a concrete failing parameter-set check reporting both
difference directions. -/
theorem c1_witness :
    ("beta" ∈ dkeys paramsT ↔
      ("beta" ∈ mcT.parameter_names ∨ "beta" ∈ mcT.parameters_stratified_names.flatten ∨
       "beta" ∈ mcT.stratification ∨
       ∃ pf ∈ ([] : List (String × TDPFun)), "beta" ∈ aux_names pf.2)) ∧
    validate_params ["a"] [] =
      .error (.paramSetMismatch (setDiffL ["a"] []) (setDiffL [] ["a"])) :=
  ⟨c1_parameter_set_exact.1 mcT statesT paramsT [] true (by rfl) "beta",
   c1_parameter_set_exact.2 ["a"] []
     (fun hall => by simpa using (hall "a").mp (by simp))⟩

/-!
Claim C7.
-/

/-- The fill loop only appends: keys present before remain present. -/
theorem fill_initial_states_keys_mono (ss : List Nat) :
    ∀ (sl : List String) (st out : PMap), fill_initial_states ss sl st = .ok out →
      ∀ k ∈ dkeys st, k ∈ dkeys out := by
  intro sl
  induction sl with
  | nil =>
    intro st out h k hk
    rw [← Except.ok.inj h]
    exact hk
  | cons s0 rest ih =>
    intro st out h k hk
    unfold fill_initial_states at h
    split at h
    · split at h
      · exact ih st out h k hk
      · exact absurd h (by simp)
    · refine ih _ out h k ?_
      unfold dkeys at hk ⊢
      rw [List.map_append, List.mem_append]
      exact Or.inl hk

/-- Specification of the fill loop on well-shaped input: it succeeds,
appends only zero blocks for names missing from the input, and afterwards
every processed name is present. -/
theorem fill_initial_states_spec (ss : List Nat) :
    ∀ (sl : List String) (st : PMap), (∀ p ∈ st, p.2.shape = ss) →
      ∃ ext : PMap,
        fill_initial_states ss sl st = .ok (st ++ ext) ∧
        (∀ p ∈ ext, p.2 = zerosND ss ∧ p.1 ∈ sl ∧ p.1 ∉ dkeys st) ∧
        (∀ s ∈ sl, s ∈ dkeys (st ++ ext)) := by
  intro sl
  induction sl with
  | nil =>
    intro st hst
    refine ⟨[], by simp [fill_initial_states], ?_, ?_⟩
    · intro p hp
      simp at hp
    · intro s hs
      simp at hs
  | cons s0 rest ih =>
    intro st hst
    rcases hl : dlookup st s0 with _ | v
    · have hst2 : ∀ p ∈ st ++ [(s0, zerosND ss)], p.2.shape = ss := by
        intro p hp
        rcases List.mem_append.mp hp with h | h
        · exact hst p h
        · simp only [List.mem_singleton] at h
          rw [h]
          rfl
      obtain ⟨ext, hrun, hext, hmem⟩ := ih (st ++ [(s0, zerosND ss)]) hst2
      have hnotin : s0 ∉ dkeys st := (dlookup_none_iff st s0).mp hl
      refine ⟨(s0, zerosND ss) :: ext, ?_, ?_, ?_⟩
      · simp only [fill_initial_states, hl]
        rw [hrun]
        simp
      · intro p hp
        rcases List.mem_cons.mp hp with h | h
        · rw [h]
          exact ⟨rfl, List.mem_cons_self _ _, hnotin⟩
        · obtain ⟨hz, hm, hnot⟩ := hext p h
          refine ⟨hz, List.mem_cons_of_mem _ hm, fun hc => hnot ?_⟩
          unfold dkeys
          rw [List.map_append, List.mem_append]
          exact Or.inl hc
      · intro s hs
        rw [List.append_cons]
        rcases List.mem_cons.mp hs with h | h
        · subst h
          unfold dkeys
          rw [List.map_append, List.mem_append]
          exact Or.inl (by rw [List.map_append, List.mem_append]; exact Or.inr (by simp))
        · exact hmem s h
    · have hv : (s0, v) ∈ st := dlookup_eq_some_mem hl
      have hs0 : s0 ∈ dkeys st := by
        unfold dkeys
        exact List.mem_map.mpr ⟨(s0, v), hv, rfl⟩
      have hshape : v.shape = ss := hst (s0, v) hv
      obtain ⟨ext, hrun, hext, hmem⟩ := ih st hst
      refine ⟨ext, ?_, ?_, ?_⟩
      · simp only [fill_initial_states, hl]
        rw [if_pos hshape, hrun]
      · intro p hp
        obtain ⟨hz, hm, hnot⟩ := hext p hp
        exact ⟨hz, List.mem_cons_of_mem _ hm, hnot⟩
      · intro s hs
        rcases List.mem_cons.mp hs with h | h
        · subst h
          unfold dkeys
          rw [List.map_append, List.mem_append]
          exact Or.inl hs0
        · exact hmem s h

theorem mem_dkeys_dlookup {m : PMap} {k : String} (h : k ∈ dkeys m) :
    ∃ v, dlookup m k = some v := by
  rcases hv : dlookup m k with _ | v
  · exact absurd h ((dlookup_none_iff m k).mp hv)
  · exact ⟨v, rfl⟩

/-- A successful initial-state processing implies the supplied keys were all
declared state names. -/
theorem process_ok_keys_subset {sn : List String} {ss : List Nat} {states r : PMap}
    (h : process_initial_states sn ss states = .ok r) :
    ∀ k ∈ dkeys states, k ∈ sn := by
  unfold process_initial_states at h
  obtain ⟨filled, hf, h⟩ := bind_ok_exists h
  intro k hk
  have hkf : k ∈ dkeys filled := fill_initial_states_keys_mono ss sn states filled hf k hk
  by_cases hc : (dkeys filled).all (fun k => sn.contains k) = true ∧
      sn.all (fun k => (dkeys filled).contains k) = true
  · exact List.elem_iff.mp (List.all_eq_true.mp hc.1 k hkf)
  · rw [if_neg hc] at h
    exact absurd h (by simp [throw, throwThe, MonadExceptOf.throw])

/-- Claim C7: a construction whose initial states omit declared state names
auto-fills each missing state with zeros shaped as the full cross-product of
axis sizes and succeeds (given the supplied arrays are well-shaped), while a
construction whose initial states contain an undeclared key always fails. -/
theorem c7_initial_states_autofill :
    (∀ (sn : List String) (ss : List Nat) (states : PMap),
      (∀ k ∈ dkeys states, k ∈ sn) →
      (∀ p ∈ states, p.2.shape = ss) →
      (process_initial_states sn ss states).isOk = true ∧
      (∀ s ∈ sn, s ∉ dkeys states →
        ∀ r, process_initial_states sn ss states = .ok r → (s, zerosND ss) ∈ r)) ∧
    (∀ (mc : ModelClass) (states parameters : PMap) (tdp : List (String × TDPFun))
       (discrete : Bool) (k : String), k ∈ dkeys states → k ∉ mc.state_names →
      (construct mc states parameters tdp discrete).isOk = false) := by
  constructor
  · intro sn ss states hkeys hshapes
    obtain ⟨ext, hrun, hext, hmem⟩ := fill_initial_states_spec ss sn states hshapes
    have hcond : (dkeys (states ++ ext)).all (fun k => sn.contains k) = true ∧
        sn.all (fun k => (dkeys (states ++ ext)).contains k) = true := by
      constructor
      · refine List.all_eq_true.mpr (fun k hk => List.elem_iff.mpr ?_)
        unfold dkeys at hk
        rw [List.map_append, List.mem_append] at hk
        rcases hk with h | h
        · exact hkeys k h
        · obtain ⟨p, hp, hpk⟩ := List.mem_map.mp h
          exact hpk ▸ (hext p hp).2.1
      · exact List.all_eq_true.mpr (fun k hk => List.elem_iff.mpr (hmem k hk))
    have hproc : process_initial_states sn ss states =
        .ok (sn.filterMap (fun s => (dlookup (states ++ ext) s).map (fun v => (s, v)))) := by
      unfold process_initial_states
      rw [hrun]
      simp only [Bind.bind, Except.bind]
      rw [if_pos hcond]
      rfl
    refine ⟨by rw [hproc]; rfl, ?_⟩
    intro s hs hnot r hr
    rw [hproc] at hr
    have hr2 := Except.ok.inj hr
    have hlook : dlookup (states ++ ext) s = some (zerosND ss) := by
      rw [dlookup_append, (dlookup_none_iff states s).mpr hnot]
      have hsk : s ∈ dkeys ext := by
        have := hmem s hs
        unfold dkeys at this
        rw [List.map_append, List.mem_append] at this
        rcases this with h | h
        · exact absurd h hnot
        · exact h
      obtain ⟨v, hv⟩ := mem_dkeys_dlookup hsk
      have hvz : v = zerosND ss := (hext (s, v) (dlookup_eq_some_mem hv)).1
      rw [hv, hvz]
      rfl
    rw [← hr2]
    exact List.mem_filterMap.mpr ⟨s, hs, by rw [hlook]; rfl⟩
  · intro mc states parameters tdp discrete k hk hnot
    cases hok : (construct mc states parameters tdp discrete).isOk with
    | false => rfl
    | true =>
      exfalso
      obtain ⟨ss, fps, rels, hf, hb⟩ := construct_ok_parts hok
      unfold bvalidate at hb
      obtain ⟨u1, h1, hb⟩ := bind_isOk hb
      obtain ⟨u2, h2, hb⟩ := bind_isOk hb
      obtain ⟨u3, h3, hb⟩ := bind_isOk hb
      obtain ⟨r, hr, _⟩ := bind_isOk hb
      exact hnot (process_ok_keys_subset hr k hk)

/-- Witness for C7 at a concrete two-state model missing one initial state. -/
theorem c7_witness :
    (process_initial_states ["S", "I"] [1] [("S", ⟨[1], [4]⟩)]).isOk = true ∧
    ("I", zerosND [1]) ∈
      [("S", (⟨[1], [4]⟩ : NDArr)), ("I", zerosND [1])] :=
  ⟨(c7_initial_states_autofill.1 ["S", "I"] [1] [("S", ⟨[1], [4]⟩)]
      (by decide) (by decide)).1,
   (c7_initial_states_autofill.1 ["S", "I"] [1] [("S", ⟨[1], [4]⟩)]
      (by decide) (by decide)).2 "I" (by decide) (by decide)
      [("S", ⟨[1], [4]⟩), ("I", zerosND [1])] (by rfl)⟩

/-!
Claim C4.
-/

/-- Claim C4 (amended): a callable whose second argument is named `param` is
classified relative with the remaining names auxiliary, any other callable is
absolute with all names after the time argument auxiliary; at evaluation, a
relative callable receives the target parameter value of the original
mapping, and the auxiliary values are read from the working mapping in which
all earlier time-dependent parameters of the same time point have already
been applied. -/
theorem c4_tdp_classification_and_aux :
    (∀ (kws aux : List String) (rel : Bool),
      validate_parameter_function kws = .ok (aux, rel) ↔
        ((∃ rest, kws = "t" :: "param" :: rest ∧ rel = true ∧ aux = rest) ∨
         (∃ k1 rest, kws = "t" :: k1 :: rest ∧ k1 ≠ "param" ∧ rel = false ∧
           aux = k1 :: rest))) ∧
    (∀ (tdps : List (String × TDPFun)) (fps : List (List String)) (rels : List Bool)
       (p : String) (f : TDPFun) (fp : List String) (r : Bool) (pars : PMap) (date : Int),
      tdps.length = fps.length → fps.length = rels.length →
      update_tdp_params (tdps ++ [(p, f)]) (fps ++ [fp]) (rels ++ [r]) pars date =
        dset (update_tdp_params tdps fps rels pars date) p
          (f.impl date
            ((if r then [dlookupD pars p] else []) ++
             fp.map (fun key => dlookupD (update_tdp_params tdps fps rels pars date) key)))) := by
  constructor
  · intro kws aux rel
    match kws with
    | [] =>
      simp only [validate_parameter_function]
      constructor
      · intro h
        exact absurd h (by simp)
      · rintro (⟨rest, h, _⟩ | ⟨k1, rest, h, _⟩) <;> exact absurd h (by simp)
    | [k0] =>
      simp only [validate_parameter_function]
      constructor
      · intro h
        by_cases h0 : k0 = "t"
        · rw [if_neg (not_not_intro h0)] at h
          exact absurd h (by simp)
        · rw [if_pos h0] at h
          exact absurd h (by simp)
      · rintro (⟨rest, h, _⟩ | ⟨k1, rest, h, _⟩) <;> exact absurd h (by simp)
    | k0 :: k1 :: rest =>
      simp only [validate_parameter_function]
      constructor
      · intro h
        by_cases h0 : k0 = "t"
        · rw [if_neg (not_not_intro h0)] at h
          by_cases h1 : k1 = "param"
          · rw [if_pos h1] at h
            have := Except.ok.inj h
            exact Or.inl ⟨rest, by rw [h0, h1], by rw [← (Prod.mk.injEq _ _ _ _).mp this |>.2],
              by rw [← (Prod.mk.injEq _ _ _ _).mp this |>.1]⟩
          · rw [if_neg h1] at h
            have := Except.ok.inj h
            exact Or.inr ⟨k1, rest, by rw [h0], h1,
              by rw [← (Prod.mk.injEq _ _ _ _).mp this |>.2],
              by rw [← (Prod.mk.injEq _ _ _ _).mp this |>.1]⟩
        · rw [if_pos h0] at h
          exact absurd h (by simp)
      · rintro (⟨rest2, h, hrel, haux⟩ | ⟨k1b, rest2, h, hne, hrel, haux⟩)
        · obtain ⟨h0, h1, h2⟩ : k0 = "t" ∧ k1 = "param" ∧ rest = rest2 := by
            refine ⟨(List.cons.inj h).1, ?_, ?_⟩
            · exact (List.cons.inj (List.cons.inj h).2).1
            · exact (List.cons.inj (List.cons.inj h).2).2
          subst h0; subst h1; subst h2; subst hrel; subst haux
          rw [if_neg (by simp), if_pos rfl]
        · obtain ⟨h0, h1, h2⟩ : k0 = "t" ∧ k1 = k1b ∧ rest = rest2 := by
            refine ⟨(List.cons.inj h).1, ?_, ?_⟩
            · exact (List.cons.inj (List.cons.inj h).2).1
            · exact (List.cons.inj (List.cons.inj h).2).2
          subst h0; subst h1; subst h2; subst hrel; subst haux
          rw [if_neg (by simp), if_neg hne]
  · intro tdps fps rels p f fp r pars date h1 h2
    unfold update_tdp_params
    have hz1 : (fps ++ [fp]).zip (rels ++ [r]) = fps.zip rels ++ [(fp, r)] :=
      List.zip_append h2
    have hlen : tdps.length = (fps.zip rels).length := by
      rw [List.length_zip, ← h2, h1, Nat.min_self]
    rw [hz1, List.zip_append hlen, List.foldl_append]
    simp only [List.zip_cons_cons, List.zip_nil_right, List.foldl_cons, List.foldl_nil]
    unfold tdp_step
    cases r <;> simp

/-- Counterexample for C4 as stated: with `gamma` overwritten first by a
constant 99 and `beta` then computed by a callable whose auxiliary argument
is `gamma`, the value passed for the auxiliary `gamma` is the overwritten 99,
not the original working value 1. -/
theorem c4_counterexample :
    validate_tdp mcSIR tdpsC4 = .ok ([["dummy"], ["gamma"]], [false, false]) ∧
    dlookup (update_tdp_params tdpsC4 [["dummy"], ["gamma"]] [false, false] parsC4 0)
      "beta" = some ⟨[], [99]⟩ ∧
    dlookup parsC4 "gamma" = some ⟨[], [1]⟩ ∧
    (⟨[], [99]⟩ : NDArr) ≠ ⟨[], [1]⟩ :=
  ⟨by decide, by rfl, by rfl, by decide⟩

/-- Witness for C4 (amended) at a concrete relative signature and the
concrete two-callable update. -/
theorem c4_witness :
    validate_parameter_function ["t", "param", "x"] = .ok (["x"], true) ∧
    update_tdp_params [("gamma", tdpf1), ("beta", tdpf2)] [[], ["gamma"]]
        [false, false] parsC4 0 =
      dset (update_tdp_params [("gamma", tdpf1)] [[]] [false] parsC4 0) "beta"
        (tdpf2.impl 0
          ((if false then [dlookupD parsC4 "beta"] else []) ++
           ["gamma"].map (fun key =>
             dlookupD (update_tdp_params [("gamma", tdpf1)] [[]] [false] parsC4 0) key))) :=
  ⟨(c4_tdp_classification_and_aux.1 ["t", "param", "x"] ["x"] true).mpr
      (Or.inl ⟨["x"], rfl, rfl, rfl⟩),
   c4_tdp_classification_and_aux.2 [("gamma", tdpf1)] [[]] [false] "beta" tdpf2
      ["gamma"] false parsC4 0 (by decide) (by decide)⟩

/-!
Claim C5.
-/

theorem solve_discrete_go_len (f : Int → List Int → PMap → List Int) (args : PMap) :
    ∀ (n : Nat) (t : Int) (y : List Int), (solve_discrete_go f args n t y).2.length = n := by
  intro n
  induction n with
  | zero => intro t y; rfl
  | succ k ih =>
    intro t y
    simp only [solve_discrete_go, List.length_cons, ih]

/-- The discrete time grid always holds one entry per unit step plus the
start, independently of the parameters. -/
theorem solve_discrete_ts_len (f : Int → List Int → PMap → List Int) (t0 t1 : Int)
    (y0 : List Int) (args : PMap) :
    (solve_discrete f t0 t1 y0 args).2.length = (t1 - t0).toNat + 1 := by
  simp only [solve_discrete, List.length_cons, solve_discrete_go_len]

theorem map_enumFrom_ignore {b : Type} (f : Nat × String → b) (g : String → b)
    (hfg : ∀ i s, f (i, s) = g s) :
    ∀ (l : List String) (n : Nat), (l.enumFrom n).map f = l.map g := by
  intro l
  induction l with
  | nil => intro n; rfl
  | cons a rest ih =>
    intro n
    simp only [List.enumFrom, List.map_cons, hfg, ih]

/-- The shape signature of an assembled dataset: one entry per state, with
the stratification axes then time as dimensions, and the axis sizes then the
number of time samples as sizes. -/
theorem var_shapes_output (m : ModelState) (cols : List (List Int)) (ts : List Int) :
    var_shapes (output_to_dataset m cols ts) =
      m.mc.state_names.map (fun s =>
        (s, (if m.mc.stratification.isEmpty then [] else m.mc.stratification) ++ ["time"],
         (if m.mc.stratification.isEmpty then [] else m.stratification_size) ++
           [ts.length])) := by
  simp only [var_shapes, output_to_dataset, List.map_map]
  exact map_enumFrom_ignore _ _ (fun i s => rfl) m.mc.state_names 0

/-- In discrete mode `sim_single` runs the discrete loop. -/
theorem sim_single_discrete (m : ModelState) (integ : Integrate) (solver : Solver)
    (tp : Int × Int) (sd : Int) (ex : Option Int) (hd : m.discrete = true) :
    sim_single m integ solver tp sd ex =
      output_to_dataset m
        (solve_discrete (fun t y pars => create_fun_eval m integ sd ex t y pars) tp.1 tp.2
          (flatten_states (m.initial_states.map (fun kv => kv.2.data))) m.parameters).1
        (solve_discrete (fun t y pars => create_fun_eval m integ sd ex t y pars) tp.1 tp.2
          (flatten_states (m.initial_states.map (fun kv => kv.2.data))) m.parameters).2 := by
  simp only [sim_single, hd]
  rfl

/-- Claim C5 (amended): `sim` with a single draw and a draw function returns
exactly the single run under the drawn parameters, with no draws axis; in
discrete mode its per-state dimensions and sizes equal those of the
no-ensemble single run. -/
theorem c5_single_draw_no_axis (m : ModelState) (integ : Integrate) (solver : Solver)
    (t0 t1 sd : Int) (ex : Option Int) (df : PMap → PMap → PMap) (samples : PMap)
    (hd : m.discrete = true) (hs : "draws" ∉ m.mc.stratification) :
    sim m integ solver (.pair t0 t1) ex sd 1 (some df) samples =
      .ok (m, sim_single { m with parameters := df m.parameters samples }
        integ solver (t0, t1) sd ex) ∧
    sim m integ solver (.pair t0 t1) ex sd 1 none samples =
      .ok (m, sim_single m integ solver (t0, t1) sd ex) ∧
    var_shapes (sim_single { m with parameters := df m.parameters samples }
        integ solver (t0, t1) sd ex) =
      var_shapes (sim_single m integ solver (t0, t1) sd ex) ∧
    (∀ v ∈ (sim_single { m with parameters := df m.parameters samples }
        integ solver (t0, t1) sd ex).vars, "draws" ∉ v.2.dims) := by
  have hshape : ∀ m2 : ModelState, m2.mc = m.mc →
      m2.stratification_size = m.stratification_size → m2.discrete = true →
      var_shapes (sim_single m2 integ solver (t0, t1) sd ex) =
        m.mc.state_names.map (fun s =>
          (s, (if m.mc.stratification.isEmpty then [] else m.mc.stratification) ++
            ["time"],
           (if m.mc.stratification.isEmpty then [] else m.stratification_size) ++
            [(t1 - t0).toNat + 1])) := by
    intro m2 hmc hss hd2
    rw [sim_single_discrete m2 integ solver (t0, t1) sd ex hd2]
    rw [var_shapes_output, solve_discrete_ts_len, hmc, hss]
  refine ⟨rfl, rfl, ?_, ?_⟩
  · rw [hshape { m with parameters := df m.parameters samples } rfl rfl hd,
      hshape m rfl rfl hd]
  · intro v hv
    have hsh : (v.1, v.2.dims, v.2.sizes) ∈ var_shapes
        (sim_single { m with parameters := df m.parameters samples }
          integ solver (t0, t1) sd ex) :=
      List.mem_map.mpr ⟨v, hv, rfl⟩
    rw [hshape { m with parameters := df m.parameters samples } rfl rfl hd] at hsh
    obtain ⟨s, _, hseq⟩ := List.mem_map.mp hsh
    have hdims : v.2.dims =
        (if m.mc.stratification.isEmpty then [] else m.mc.stratification) ++ ["time"] :=
      ((Prod.mk.injEq _ _ _ _).mp ((Prod.mk.injEq _ _ _ _).mp hseq).2).1.symm
    rw [hdims]
    intro hc
    rcases List.mem_append.mp hc with h | h
    · by_cases he : m.mc.stratification.isEmpty
      · rw [if_pos he] at h
        simp at h
      · rw [if_neg he] at h
        exact hs h
    · simp at h

/-- Counterexample for C5 as stated: at `N = 1` with a draw function the
result of `sim` carries no draws axis at all (its dimensions equal the
no-ensemble case exactly), rather than a trailing singleton draws axis. -/
theorem c5_counterexample :
    (sim mT integT solvT (.pair 0 2) none 0 1 (some drawT) samplesT).map
        (fun r => r.2.vars.map (fun v => (v.1, v.2.dims))) = .ok [("S", ["time"])] ∧
    (sim mT integT solvT (.pair 0 2) none 0 1 none samplesT).map
        (fun r => r.2.vars.map (fun v => (v.1, v.2.dims))) = .ok [("S", ["time"])] ∧
    "draws" ∉ (["time"] : List String) :=
  ⟨by rfl, by rfl, by decide⟩

/-- Witness for C5 (amended) at the concrete minimal discrete model. -/
theorem c5_witness :
    mT.discrete = true ∧
    var_shapes (sim_single { mT with parameters := drawT mT.parameters samplesT }
        integT solvT (0, 1) 0 none) =
      var_shapes (sim_single mT integT solvT (0, 1) 0 none) :=
  ⟨rfl, (c5_single_draw_no_axis mT integT solvT 0 1 0 none drawT samplesT rfl
    (by decide)).2.2.1⟩

/-!
Claim C6.
-/

theorem create_fun_eval_nonneg (m : ModelState) (integ : Integrate)
    (hi : ∀ t ys ps, ∀ blk ∈ integ t ys ps, ∀ x ∈ blk, 0 ≤ x)
    (sd : Int) (ex : Option Int) (t : Int) (y : List Int) (pars : PMap) :
    ∀ x ∈ create_fun_eval m integ sd ex t y pars, 0 ≤ x := by
  intro x hx
  simp only [create_fun_eval, flatten_states] at hx
  obtain ⟨blk, hblk, hxb⟩ := List.mem_flatten.mp hx
  exact hi _ _ _ blk hblk x hxb

theorem solve_discrete_go_nonneg (f : Int → List Int → PMap → List Int) (args : PMap)
    (hf : ∀ t y, ∀ x ∈ f t y args, 0 ≤ x) :
    ∀ (n : Nat) (t : Int) (y : List Int),
      ∀ c ∈ (solve_discrete_go f args n t y).1, ∀ x ∈ c, 0 ≤ x := by
  intro n
  induction n with
  | zero =>
    intro t y c hc
    simp [solve_discrete_go] at hc
  | succ k ih =>
    intro t y c hc
    simp only [solve_discrete_go] at hc
    rcases List.mem_cons.mp hc with h | h
    · intro x hx
      exact hf t y x (h ▸ hx)
    · exact ih (t + 1) (f t y args) c h

/-- Every column the discrete loop returns is non-negative when the initial
column is and every step output is. -/
theorem solve_discrete_nonneg (f : Int → List Int → PMap → List Int) (t0 t1 : Int)
    (y0 : List Int) (args : PMap) (h0 : ∀ x ∈ y0, 0 ≤ x)
    (hf : ∀ t y, ∀ x ∈ f t y args, 0 ≤ x) :
    ∀ c ∈ (solve_discrete f t0 t1 y0 args).1, ∀ x ∈ c, 0 ≤ x := by
  intro c hc
  simp only [solve_discrete] at hc
  rcases List.mem_cons.mp hc with h | h
  · intro x hx
    exact h0 x (h ▸ hx)
  · exact solve_discrete_go_nonneg f args hf _ t0 y0 c h

theorem output_data_nonneg (m : ModelState) (cols : List (List Int)) (ts : List Int)
    (hc : ∀ c ∈ cols, ∀ x ∈ c, 0 ≤ x) :
    ∀ v ∈ (output_to_dataset m cols ts).vars, ∀ x ∈ v.2.data, 0 ≤ x := by
  intro v hv x hx
  simp only [output_to_dataset] at hv
  obtain ⟨si, hsi, hveq⟩ := List.mem_map.mp hv
  rw [← hveq] at hx
  simp only at hx
  obtain ⟨l, hl, hxl⟩ := List.mem_flatten.mp hx
  obtain ⟨k, hk, hleq⟩ := List.mem_map.mp hl
  rw [← hleq] at hxl
  simp only [row_series] at hxl
  obtain ⟨c, hcc, hxc⟩ := List.mem_map.mp hxl
  rw [← hxc]
  exact getD_nonneg (hc c hcc) _

/-- Claim C6 (amended): every state array of a discrete run is non-negative
provided the initial states are non-negative and the transition function
never returns a negative entry; and `simple_stochastic_SIR.integrate` never
returns a negative entry thanks to its final clamping, for every draw
oracle. -/
theorem c6_discrete_nonnegative :
    (∀ (m : ModelState) (integ : Integrate) (solver : Solver) (tp : Int × Int)
       (sd : Int) (ex : Option Int),
      m.discrete = true →
      (∀ p ∈ m.initial_states, ∀ x ∈ p.2.data, 0 ≤ x) →
      (∀ t ys ps, ∀ blk ∈ integ t ys ps, ∀ x ∈ blk, 0 ≤ x) →
      ∀ v ∈ (sim_single m integ solver tp sd ex).vars, ∀ x ∈ v.2.data, 0 ≤ x) ∧
    (∀ (oracle : Nat → Nat → Int) (t : Int) (ys : List (List Int)) (ps : List NDArr),
      ∀ blk ∈ sir_integrate oracle t ys ps, ∀ x ∈ blk, 0 ≤ x) := by
  constructor
  · intro m integ solver tp sd ex hd hinit hinteg
    rw [sim_single_discrete m integ solver tp sd ex hd]
    refine output_data_nonneg m _ _ ?_
    refine solve_discrete_nonneg _ tp.1 tp.2 _ m.parameters ?_ ?_
    · intro x hx
      simp only [flatten_states] at hx
      obtain ⟨blk, hblk, hxb⟩ := List.mem_flatten.mp hx
      obtain ⟨p, hp, hpe⟩ := List.mem_map.mp hblk
      exact hinit p hp x (hpe ▸ hxb)
    · intro t y x hx
      exact create_fun_eval_nonneg m integ hinteg sd ex t y m.parameters x hx
  · intro oracle t ys ps blk hblk x hx
    simp only [sir_integrate] at hblk
    obtain ⟨l, hl, hbe⟩ := List.mem_map.mp hblk
    rw [← hbe] at hx
    obtain ⟨y, hy, hxe⟩ := List.mem_map.mp hx
    rw [← hxe]
    by_cases hneg : y < 0
    · rw [if_pos hneg]
    · rw [if_neg hneg]
      exact le_of_not_lt hneg

/-- Counterexample for C6 as stated: a validly constructed discrete SIR model
whose supplied initial susceptible count is negative returns that negative
value in its result (the initial column is returned unclamped), even though
the transition function clamps each step. -/
theorem c6_counterexample :
    ((construct mcSIR statesSIRneg paramsSIR [] true) >>= (fun m =>
      (sim m (sir_integrate (fun _ _ => 0)) solvT (.pair 0 1) none 0 1 none []).map
        (fun r => r.2.vars.map (fun v => (v.1, v.2.data))))) =
      .ok [("S", [-1, 0]), ("I", [1, 1]), ("R", [0, 0])] ∧
    (-1 : Int) < 0 :=
  ⟨by decide, by decide⟩

/-- Witness for C6 (amended) at the concrete non-negative SIR instance. -/
theorem c6_witness :
    mSIRpos.discrete = true ∧ (0 : Int) ≤ 3 :=
  ⟨rfl, c6_discrete_nonnegative.1 mSIRpos (sir_integrate oracleT) solvT (0, 1) 0 none
    rfl (by decide) (c6_discrete_nonnegative.2 oracleT)
    ("S", ⟨["Nc", "time"], [1, 2], [3, 2]⟩) (by decide) 3 (by decide)⟩

/-!
Witnesses for claims C3 and C9.
-/

/-- Witness for C3: two draws with a draw function that replaces the whole
mapping still return the instance with its baseline parameters. -/
theorem c3_witness :
    sim mT integT solvT (.pair 0 1) none 0 2 (some drawT) samplesT =
      .ok (mT, concat_draws (sim_single mTd integT solvT (0, 1) 0 none)
        (sim_single mTd integT solvT (0, 1) 0 none)) ∧
    mT.parameters = mT.parameters :=
  ⟨rfl, c3_sim_restores_parameters mT integT solvT (.pair 0 1) none 0 2 (some drawT)
    samplesT mT (concat_draws (sim_single mTd integT solvT (0, 1) 0 none)
      (sim_single mTd integT solvT (0, 1) 0 none)) rfl⟩

/-- Witness for C9 at the concrete minimal discrete model. -/
theorem c9_witness :
    mT = mT ∧ sim mT integT solvT (.pair 0 1) none 0 1 none [] =
      .ok (mT, sim_single mT integT solvT (0, 1) 0 none) :=
  c9_sim_idempotent mT integT solvT (.pair 0 1) none 0 1 []
    mT (sim_single mT integT solvT (0, 1) 0 none) rfl

end Covid
